import Mathlib

set_option maxRecDepth 8000

/-!
Verification development for the SM2 public-key encryption core
(`src/sm2_enc.c` of GmSSL): the encrypt/decrypt pair, the fixed
point-size encrypt variant with its bounded retry loop, the DER codec of
the ciphertext structure, and the streaming facade.

Byte buffers are modelled as `List Nat` (each entry one byte), machine
integers as `Nat`, and the external collaborators that are not part of
the repository slice (curve arithmetic, SM3, the SM2 KDF, the raw ASN.1
primitives) are modelled from the specification's interface contracts,
as marked on each definition.

Stack-local secret buffers (`k`, `k*P`, `x2y2`, `d`) are threaded
explicitly as state, so that the wiping behaviour of every exit path is
part of the functions' results.
-/

/-- Big-endian byte list to natural number; models `sm2_z256_from_bytes`
(external, spec section 6: coordinates and scalars are 32-byte big-endian). -/
def beToNat (l : List Nat) : Nat := l.foldl (fun a b => a * 256 + b) 0

/-- Big-endian fixed-width byte encoding of a natural number
(width first); helper used by the concrete witness instances. -/
def natToBytesBE : Nat → Nat → List Nat
  | 0, _ => []
  | w + 1, n => natToBytesBE w (n / 256) ++ [n % 256]

/-- Models `all_zero` from sm2_enc.c: true iff every byte of the buffer
is zero. -/
def all_zero (l : List Nat) : Bool := l.all (fun b => b == 0)

/-- Models `gmssl_memxor` (external, mem.h): bytewise xor of two buffers
of the same length. -/
def gmssl_memxor (a b : List Nat) : List Nat := List.zipWith (fun x y => x ^^^ y) a b

/-- Writing a byte string at the start of a caller-supplied buffer:
the written bytes replace the prefix, the rest of the buffer is kept. -/
def writeBytes (buf xs : List Nat) : List Nat := xs ++ buf.drop xs.length

/-- `SM2_MIN_PLAINTEXT_SIZE` (spec section 6: `MIN_PLAINTEXT = 1`). -/
def SM2_MIN_PLAINTEXT_SIZE : Nat := 1

/-- `SM2_MAX_PLAINTEXT_SIZE` (the implementation bound; the `uint8_t`
cast of `ciphertext_size` at sm2_enc.c:333 fixes it at 255). -/
def SM2_MAX_PLAINTEXT_SIZE : Nat := 255

/-- `SM2_MAX_CIPHERTEXT_SIZE`: upper bound of the DER-encoded ciphertext
given `SM2_MAX_PLAINTEXT_SIZE` (4 header + 35 + 35 + 34 + 258). -/
def SM2_MAX_CIPHERTEXT_SIZE : Nat := 366

/-- The three `point_size` presets accepted by `sm2_do_encrypt_fixlen`:
combined DER size of the two coordinate INTEGERs when zero sign bytes
are needed (`SM2_ciphertext_compact_point_size`). -/
def SM2_ciphertext_compact_point_size : Nat := 68

/-- Preset: one coordinate needs a DER sign byte
(`SM2_ciphertext_typical_point_size`). -/
def SM2_ciphertext_typical_point_size : Nat := 69

/-- Preset: both coordinates need a DER sign byte
(`SM2_ciphertext_max_point_size`). -/
def SM2_ciphertext_max_point_size : Nat := 70

/-- `MAX_TRIES` of the fixed-length retry loop: `trys = 200` in
`sm2_do_encrypt_fixlen` (sm2_enc.c:120). -/
def MAX_TRIES : Nat := 200

/-- The SM2 curve prime field modulus (GB/T 32918 curve parameters). -/
def sm2_p : Nat :=
  0xFFFFFFFEFFFFFFFFFFFFFFFFFFFFFFFFFFFFFFFF00000000FFFFFFFFFFFFFFFF

/-- The SM2 curve coefficient `a` (= p - 3). -/
def sm2_a : Nat := sm2_p - 3

/-- The SM2 curve coefficient `b`. -/
def sm2_b : Nat :=
  0x28E9FA9E9D9F5E344D5A9E4BCF6509A7F39789F515AB8F92DDBCBD414D940E93

/-- Modelled from the spec: `sm2_point_is_on_curve` (external, sm2.h),
the on-curve check on a pair of 32-byte big-endian affine coordinates:
`y^2 = x^3 + a*x + b` over the SM2 prime field (spec sections 4.1, 6). -/
def sm2_point_is_on_curve (x y : List Nat) : Bool :=
  let X := beToNat x
  let Y := beToNat y
  (Y * Y) % sm2_p == (X * X * X + sm2_a * X + sm2_b) % sm2_p

/-! ## ASN.1 DER primitives

Modelled from the spec (sections 4.1 and 6): the `asn1_*_to_der` /
`asn1_*_from_der` collaborators live outside the repository slice. The
emit side is deterministic, so the measure-only mode of the C API is
modelled by taking the length of the emitted bytes. Definite-length
encodings up to 65535 bytes cover every SM2 ciphertext. -/

/-- DER definite length encoding (short form below 128, long form with
one or two length bytes above). -/
def asn1_length_to_der (n : Nat) : List Nat :=
  if n < 128 then [n]
  else if n < 256 then [129, n]
  else [130, n / 256, n % 256]

/-- DER definite length decoding; returns the length and the remaining
bytes. -/
def asn1_length_from_der : List Nat → Option (Nat × List Nat)
  | [] => none
  | b :: rest =>
    if b < 128 then some (b, rest)
    else if b = 129 then
      match rest with
      | n :: r => some (n, r)
      | [] => none
    else if b = 130 then
      match rest with
      | n1 :: n2 :: r => some (n1 * 256 + n2, r)
      | _ => none
    else none

/-- Generic DER TLV decoding for a fixed tag: checks the tag, reads the
length, and splits off exactly that many content bytes. -/
def asn1_tlv_from_der (tag : Nat) (input : List Nat) : Option (List Nat × List Nat) :=
  match input with
  | [] => none
  | b :: rest =>
    if b = tag then
      match asn1_length_from_der rest with
      | some (n, r) => if n ≤ r.length then some (r.take n, r.drop n) else none
      | none => none
    else none

/-- Leading zero bytes stripped, as DER INTEGER encoding requires. -/
def stripLeadingZeros (l : List Nat) : List Nat := l.dropWhile (fun b => b == 0)

/-- Content octets of the DER INTEGER for an unsigned big-endian buffer:
leading zeros stripped, a single `0x00` for the value zero, and a
`0x00` sign byte prepended when the top bit of the first payload byte
is set (spec section 4.1). -/
def asn1_integer_content (buf : List Nat) : List Nat :=
  match stripLeadingZeros buf with
  | [] => [0]
  | b :: bs => if 128 ≤ b then 0 :: b :: bs else b :: bs

/-- Models `asn1_integer_to_der` (emit mode) for an unsigned big-endian
buffer. -/
def asn1_integer_to_der (buf : List Nat) : List Nat :=
  2 :: asn1_length_to_der (asn1_integer_content buf).length ++ asn1_integer_content buf

/-- Models `asn1_integer_from_der`: parses an INTEGER TLV, rejects empty
and negative content, and removes the `0x00` sign byte; returns the
unsigned payload. -/
def asn1_integer_from_der (input : List Nat) : Option (List Nat × List Nat) :=
  match asn1_tlv_from_der 2 input with
  | some (c, rest) =>
    match c with
    | [] => none
    | b :: bs =>
      if 128 ≤ b then none
      else if b = 0 ∧ bs ≠ [] then some (bs, rest)
      else some (b :: bs, rest)
  | none => none

/-- Models `asn1_octet_string_to_der` (emit mode). -/
def asn1_octet_string_to_der (buf : List Nat) : List Nat :=
  4 :: asn1_length_to_der buf.length ++ buf

/-- Models `asn1_octet_string_from_der`. -/
def asn1_octet_string_from_der (input : List Nat) : Option (List Nat × List Nat) :=
  asn1_tlv_from_der 4 input

/-- Models `asn1_sequence_header_to_der` (emit mode). -/
def asn1_sequence_header_to_der (n : Nat) : List Nat :=
  48 :: asn1_length_to_der n

/-- Models `asn1_sequence_from_der`: yields the SEQUENCE content and the
bytes remaining after the SEQUENCE. -/
def asn1_sequence_from_der (input : List Nat) : Option (List Nat × List Nat) :=
  asn1_tlv_from_der 48 input

/-! ## Data model -/

/-- Models `SM2_CIPHERTEXT`: `point.x`, `point.y` and `hash` model the
fixed 32-byte arrays, `ciphertext` the first `ciphertext_size` bytes of
the fixed body array. -/
structure SM2_CIPHERTEXT where
  x : List Nat
  y : List Nat
  hash : List Nat
  ciphertext : List Nat
  ciphertext_size : Nat
deriving DecidableEq

/-- Models `SM2_KEY`: the 64-byte serialized public point and the
32-byte big-endian private scalar. -/
structure SM2_KEY where
  public_key : List Nat
  private_key : List Nat
deriving DecidableEq

/-- Models `SM2_ENC_CTX`: the streaming accumulator; `buf_size` of the C
struct is `buf.length`. -/
structure SM2_ENC_CTX where
  sm2_key : SM2_KEY
  buf : List Nat
deriving DecidableEq

/-- The zeroed `SM2_CIPHERTEXT` produced by `memset(C, 0, sizeof *C)`. -/
def zeroCiphertext : SM2_CIPHERTEXT :=
  { x := List.replicate 32 0, y := List.replicate 32 0,
    hash := List.replicate 32 0, ciphertext := [], ciphertext_size := 0 }

/-- Modelled from the spec: the external collaborators of section 6 that
are not part of the repository slice (curve arithmetic in sm2_z256.c,
SM3, the SM2 KDF). `Point` is the abstract curve point type
`SM2_Z256_POINT`; every operation is a pure function, and the contracts
the spec states for them appear as hypotheses of the theorems that need
them. -/
structure SM2Prims (Point : Type) where
  pointFromBytes : List Nat → Point
  pointToBytes : Point → List Nat
  pointMulGenerator : Nat → Point
  pointMul : Nat → Point → Point
  pointIsOnCurve : Point → Bool
  kdf : List Nat → Nat → List Nat
  sm3 : List Nat → List Nat

/-- The stack locals of `sm2_do_encrypt` / `sm2_do_encrypt_fixlen` that
hold secrets: the scalar `k`, the shared point `kP`, and the coordinate
buffer `x2y2`. Their value on return models what the routine leaves in
its stack frame (`0` / `none` / zero bytes once wiped). -/
structure EncLocals (Point : Type) where
  k : Nat
  kP : Option Point
  x2y2 : List Nat
deriving DecidableEq

/-- The locals before the first attempt (uninitialized stack, modelled
as zeroed). -/
def initEncLocals (Point : Type) : EncLocals Point :=
  { k := 0, kP := none, x2y2 := List.replicate 64 0 }

/-- The locals after the unconditional `gmssl_secure_clear` calls on the
success exit (sm2_enc.c:112-114). -/
def wipedEncLocals (Point : Type) : EncLocals Point :=
  { k := 0, kP := none, x2y2 := List.replicate 64 0 }

/-- Result of the core encrypt: the returned ciphertext (`none` models
the -1 return) and the final state of the secret locals. -/
structure EncResult (Point : Type) where
  result : Option SM2_CIPHERTEXT
  locals : EncLocals Point
deriving DecidableEq

/-- Retry events of `sm2_do_encrypt_fixlen`, recording the live value of
the local `k` and of the attempt counter `trys` at the moment the
branch is taken. -/
inductive FixEv where
  | lenRetry (k trys : Nat)
  | zeroRetry (k trys : Nat)
  | exhausted (k : Nat)
deriving DecidableEq

/-- True exactly on length-mismatch retry events. -/
def FixEv.isLenRetry : FixEv → Bool
  | .lenRetry _ _ => true
  | _ => false

/-- Result of the fixed-length core encrypt: return value, final secret
locals, and the trace of retry events. -/
structure FixResult (Point : Type) where
  result : Option SM2_CIPHERTEXT
  locals : EncLocals Point
  trace : List FixEv
deriving DecidableEq

/-- The stack locals of `sm2_do_decrypt` holding secrets: the private
scalar `d`, the point variable `C1` (which holds `d*C1` once computed),
and `x2y2`. -/
structure DecLocals (Point : Type) where
  d : Nat
  pt : Option Point
  x2y2 : List Nat
deriving DecidableEq

/-- Decrypt locals after the `end:` label's `gmssl_secure_clear` calls
(sm2_enc.c:256-258). -/
def wipedDecLocals (Point : Type) : DecLocals Point :=
  { d := 0, pt := none, x2y2 := List.replicate 64 0 }

/-- Result of `sm2_do_decrypt`: the C return value, the caller's output
buffer after the call, the `*outlen` out-parameter (`none` if never
written), and the final secret locals. -/
structure DecResult (Point : Type) where
  ret : Int
  out : List Nat
  outlen : Option Nat
  locals : DecLocals Point
deriving DecidableEq

/-- The successful draws available in a modelled RNG outcome stream
(each `sm2_z256_rand_range` call consumes one entry; `none` models an
RNG failure). -/
def randValues (rands : List (Option Nat)) : List Nat := rands.filterMap id

/-! ## Core encrypt (sm2_do_encrypt, sm2_enc.c:55-116) -/

/-- The ciphertext built by a successful attempt of `sm2_do_encrypt`
with ephemeral scalar `k` against public point `P`: `C1 = k*G` split
into `x`,`y`; body `M xor KDF(x2 || y2, |M|)`; tag
`SM3(x2 || M || y2)` (sm2_enc.c:85-110). -/
def encOut {Point : Type} (prims : SM2Prims Point) (P : Point) (M : List Nat) (k : Nat) :
    SM2_CIPHERTEXT :=
  let pb := prims.pointToBytes (prims.pointMulGenerator k)
  let x2y2 := prims.pointToBytes (prims.pointMul k P)
  let t := prims.kdf x2y2 M.length
  { x := pb.take 32, y := pb.drop 32,
    hash := prims.sm3 (x2y2.take 32 ++ M ++ x2y2.drop 32),
    ciphertext := gmssl_memxor t M,
    ciphertext_size := M.length }

/-- The `retry:` loop of `sm2_do_encrypt` (sm2_enc.c:75-115). Each
iteration consumes RNG outcomes: a failing outcome returns -1 without
touching the locals (the previous attempt's secrets stay live), a zero
draw writes `k = 0` and redraws, and a nonzero draw runs one attempt,
restarting on an all-zero KDF output. The success exit wipes `k`, `kP`
and `x2y2`. An exhausted outcome list also returns -1 (the C loop would
keep consuming randomness). -/
def sm2_do_encrypt_loop {Point : Type} (prims : SM2Prims Point) (P : Point)
    (M : List Nat) : List (Option Nat) → EncLocals Point → EncResult Point
  | [], locals => { result := none, locals := locals }
  | none :: _, locals => { result := none, locals := locals }
  | some kv :: rest, locals =>
    if kv = 0 then
      sm2_do_encrypt_loop prims P M rest { locals with k := 0 }
    else
      let kP := prims.pointMul kv P
      let x2y2 := prims.pointToBytes kP
      let locals2 : EncLocals Point := { k := kv, kP := some kP, x2y2 := x2y2 }
      let t := prims.kdf x2y2 M.length
      if all_zero t then
        sm2_do_encrypt_loop prims P M rest locals2
      else
        { result := some (encOut prims P M kv), locals := wipedEncLocals Point }

/-- Models `sm2_do_encrypt` (sm2_enc.c:55-116): plaintext length bounds
check, public-key deserialization, then the retry loop. -/
def sm2_do_encrypt {Point : Type} (prims : SM2Prims Point) (rands : List (Option Nat))
    (key : SM2_KEY) (M : List Nat) : EncResult Point :=
  if SM2_MIN_PLAINTEXT_SIZE ≤ M.length ∧ M.length ≤ SM2_MAX_PLAINTEXT_SIZE then
    sm2_do_encrypt_loop prims (prims.pointFromBytes key.public_key) M rands
      (initEncLocals Point)
  else
    { result := none, locals := initEncLocals Point }

/-! ## Fixed point-size encrypt (sm2_do_encrypt_fixlen, sm2_enc.c:118-204) -/

/-- The measured combined DER length of the two coordinate INTEGERs of
`C1` (`asn1_integer_to_der(..., NULL, &len)` twice, sm2_enc.c:164-166). -/
def measuredPointSize (pb : List Nat) : Nat :=
  (asn1_integer_to_der (pb.take 32)).length + (asn1_integer_to_der (pb.drop 32)).length

/-- The `retry:` loop of `sm2_do_encrypt_fixlen` (sm2_enc.c:149-203),
with the attempt counter `trys` explicit and a trace of the retry
branches. A nonzero draw with `trys = 0` wipes `k` and fails
(sm2_enc.c:171-175); with `trys > 0` a length mismatch decrements
`trys` and redraws without wiping anything (sm2_enc.c:167-170); an
all-zero KDF output redraws with `trys` unchanged (sm2_enc.c:185-187). -/
def sm2_do_encrypt_fixlen_loop {Point : Type} (prims : SM2Prims Point) (P : Point)
    (M : List Nat) (point_size : Nat) :
    List (Option Nat) → Nat → EncLocals Point → FixResult Point
  | [], _, locals => { result := none, locals := locals, trace := [] }
  | none :: _, _, locals => { result := none, locals := locals, trace := [] }
  | some kv :: rest, trys, locals =>
    if kv = 0 then
      sm2_do_encrypt_fixlen_loop prims P M point_size rest trys { locals with k := 0 }
    else
      let locals1 : EncLocals Point := { locals with k := kv }
      let pb := prims.pointToBytes (prims.pointMulGenerator kv)
      if trys = 0 then
        { result := none, locals := { locals1 with k := 0 }, trace := [.exhausted kv] }
      else if measuredPointSize pb ≠ point_size then
        let r := sm2_do_encrypt_fixlen_loop prims P M point_size rest (trys - 1) locals1
        { result := r.result, locals := r.locals, trace := .lenRetry kv trys :: r.trace }
      else
        let kP := prims.pointMul kv P
        let x2y2 := prims.pointToBytes kP
        let locals2 : EncLocals Point := { k := kv, kP := some kP, x2y2 := x2y2 }
        let t := prims.kdf x2y2 M.length
        if all_zero t then
          let r := sm2_do_encrypt_fixlen_loop prims P M point_size rest trys locals2
          { result := r.result, locals := r.locals, trace := .zeroRetry kv trys :: r.trace }
        else
          { result := some (encOut prims P M kv), locals := wipedEncLocals Point,
            trace := [] }

/-- Models `sm2_do_encrypt_fixlen` (sm2_enc.c:118-204): length bounds
check, `point_size` preset check, then the bounded retry loop with
`trys = MAX_TRIES`. -/
def sm2_do_encrypt_fixlen {Point : Type} (prims : SM2Prims Point)
    (rands : List (Option Nat)) (key : SM2_KEY) (M : List Nat) (point_size : Nat) :
    FixResult Point :=
  if SM2_MIN_PLAINTEXT_SIZE ≤ M.length ∧ M.length ≤ SM2_MAX_PLAINTEXT_SIZE then
    if point_size = SM2_ciphertext_compact_point_size ∨
       point_size = SM2_ciphertext_typical_point_size ∨
       point_size = SM2_ciphertext_max_point_size then
      sm2_do_encrypt_fixlen_loop prims (prims.pointFromBytes key.public_key) M
        point_size rands MAX_TRIES (initEncLocals Point)
    else
      { result := none, locals := initEncLocals Point, trace := [] }
  else
    { result := none, locals := initEncLocals Point, trace := [] }

/-! ## Core decrypt (sm2_do_decrypt, sm2_enc.c:206-260) -/

/-- `sm2_z256_from_bytes` (external): 32-byte big-endian buffer to
scalar. -/
def sm2_z256_from_bytes (bs : List Nat) : Nat := beToNat bs

/-- The shared point `d * C1` computed by `sm2_do_decrypt`
(sm2_enc.c:226-227). -/
def dec_point {Point : Type} (prims : SM2Prims Point) (key : SM2_KEY)
    (Cin : SM2_CIPHERTEXT) : Point :=
  prims.pointMul (sm2_z256_from_bytes key.private_key)
    (prims.pointFromBytes (Cin.x ++ Cin.y))

/-- The `x2y2` buffer of `sm2_do_decrypt` (sm2_enc.c:230). -/
def dec_x2y2 {Point : Type} (prims : SM2Prims Point) (key : SM2_KEY)
    (Cin : SM2_CIPHERTEXT) : List Nat :=
  prims.pointToBytes (dec_point prims key Cin)

/-- The keystream `t = KDF(x2 || y2, ciphertext_size)` of
`sm2_do_decrypt` (sm2_enc.c:231), written into the caller's output
buffer. -/
def dec_t {Point : Type} (prims : SM2Prims Point) (key : SM2_KEY)
    (Cin : SM2_CIPHERTEXT) : List Nat :=
  prims.kdf (dec_x2y2 prims key Cin) Cin.ciphertext_size

/-- The caller's output buffer after the KDF wrote the keystream into
it. -/
def dec_out1 {Point : Type} (prims : SM2Prims Point) (key : SM2_KEY)
    (Cin : SM2_CIPHERTEXT) (out0 : List Nat) : List Nat :=
  writeBytes out0 (dec_t prims key Cin)

/-- The candidate plaintext `M = C2 xor t` (sm2_enc.c:238). -/
def dec_M {Point : Type} (prims : SM2Prims Point) (key : SM2_KEY)
    (Cin : SM2_CIPHERTEXT) (out0 : List Nat) : List Nat :=
  gmssl_memxor ((dec_out1 prims key Cin out0).take Cin.ciphertext_size)
    (Cin.ciphertext.take Cin.ciphertext_size)

/-- The caller's output buffer after the in-place xor (sm2_enc.c:238). -/
def dec_out2 {Point : Type} (prims : SM2Prims Point) (key : SM2_KEY)
    (Cin : SM2_CIPHERTEXT) (out0 : List Nat) : List Nat :=
  writeBytes (dec_out1 prims key Cin out0) (dec_M prims key Cin out0)

/-- The recomputed tag `u = SM3(x2 || M || y2)` (sm2_enc.c:242-246); the
message bytes are read back from the caller's output buffer. -/
def dec_u {Point : Type} (prims : SM2Prims Point) (key : SM2_KEY)
    (Cin : SM2_CIPHERTEXT) (out0 : List Nat) : List Nat :=
  prims.sm3 ((dec_x2y2 prims key Cin).take 32 ++
    (dec_out2 prims key Cin out0).take Cin.ciphertext_size ++
    (dec_x2y2 prims key Cin).drop 32)

/-- Models `sm2_do_decrypt` (sm2_enc.c:206-260): on-curve check before
any use of `d`, keystream derivation into the caller's buffer, all-zero
rejection, in-place xor, `*outlen` assignment, tag comparison. All
paths reaching the `end:` label wipe `d`, the point variable and
`x2y2`; the on-curve failure path returns before any secret exists
(the point variable still holds the public input point). -/
def sm2_do_decrypt {Point : Type} (prims : SM2Prims Point) (key : SM2_KEY)
    (Cin : SM2_CIPHERTEXT) (out0 : List Nat) : DecResult Point :=
  if prims.pointIsOnCurve (prims.pointFromBytes (Cin.x ++ Cin.y)) then
    if all_zero ((dec_out1 prims key Cin out0).take Cin.ciphertext_size) then
      { ret := -1, out := dec_out1 prims key Cin out0, outlen := none,
        locals := wipedDecLocals Point }
    else if Cin.hash = dec_u prims key Cin out0 then
      { ret := 1, out := dec_out2 prims key Cin out0,
        outlen := some Cin.ciphertext_size, locals := wipedDecLocals Point }
    else
      { ret := -1, out := dec_out2 prims key Cin out0,
        outlen := some Cin.ciphertext_size, locals := wipedDecLocals Point }
  else
    { ret := -1, out := out0, outlen := none,
      locals := { d := 0, pt := some (prims.pointFromBytes (Cin.x ++ Cin.y)),
                  x2y2 := List.replicate 64 0 } }

/-! ## Ciphertext DER codec (sm2_enc.c:263-335) -/

/-- Models `sm2_ciphertext_to_der` (sm2_enc.c:263-282): a DER SEQUENCE
of INTEGER x, INTEGER y, OCTET STRING hash (32 bytes), OCTET STRING
body (`ciphertext_size` bytes). -/
def sm2_ciphertext_to_der (C : SM2_CIPHERTEXT) : List Nat :=
  let body := asn1_integer_to_der C.x ++ asn1_integer_to_der C.y ++
    asn1_octet_string_to_der C.hash ++
    asn1_octet_string_to_der (C.ciphertext.take C.ciphertext_size)
  asn1_sequence_header_to_der body.length ++ body

/-- The parsing stage of `sm2_ciphertext_from_der` (sm2_enc.c:295-323):
everything before the first write to the caller's structure. Returns
the four raw payloads and the bytes remaining after the SEQUENCE. -/
def sm2_ciphertext_parse_fields (input : List Nat) :
    Option ((List Nat × List Nat × List Nat × List Nat) × List Nat) :=
  match asn1_sequence_from_der input with
  | none => none
  | some (d0, rest) =>
    match asn1_integer_from_der d0 with
    | none => none
    | some (x, d1) =>
      if 32 < x.length then none
      else
        match asn1_integer_from_der d1 with
        | none => none
        | some (y, d2) =>
          if 32 < y.length then none
          else
            match asn1_octet_string_from_der d2 with
            | none => none
            | some (h, d3) =>
              if h.length ≠ 32 then none
              else
                match asn1_octet_string_from_der d3 with
                | none => none
                | some (c, d4) =>
                  if SM2_MAX_PLAINTEXT_SIZE < c.length then none
                  else if d4.length ≠ 0 then none
                  else some ((x, y, h, c), rest)

/-- Models `sm2_ciphertext_from_der` (sm2_enc.c:284-335), with the
caller's structure threaded as state: the first component is the
parse result (payload structure and remaining input, `none` models a
non-1 return), the second the caller's structure after the call. On a
parse failure the structure is untouched; after a successful parse it
is zeroed and the left-zero-padded coordinates are copied in
(sm2_enc.c:324-326) before the on-curve check, whose failure therefore
leaves the structure partially populated. -/
def sm2_ciphertext_from_der (C0 : SM2_CIPHERTEXT) (input : List Nat) :
    Option (SM2_CIPHERTEXT × List Nat) × SM2_CIPHERTEXT :=
  match sm2_ciphertext_parse_fields input with
  | none => (none, C0)
  | some ((x, y, h, c), rest) =>
    let C1 : SM2_CIPHERTEXT :=
      { zeroCiphertext with
        x := List.replicate (32 - x.length) 0 ++ x,
        y := List.replicate (32 - y.length) 0 ++ y }
    if sm2_point_is_on_curve C1.x C1.y then
      let C2 : SM2_CIPHERTEXT :=
        { C1 with hash := h, ciphertext := c, ciphertext_size := c.length % 256 }
      (some (C2, rest), C2)
    else
      (none, C1)

/-! ## Public API wrappers (sm2_enc.c:356-424) -/

/-- Models `sm2_encrypt` (sm2_enc.c:356-379): zero-length rejection,
core encrypt, DER encoding; `none` models the -1 return. The null
pointer checks have no counterpart in the embedding. -/
def sm2_encrypt {Point : Type} (prims : SM2Prims Point) (rands : List (Option Nat))
    (key : SM2_KEY) (M : List Nat) : Option (List Nat) :=
  if M.length = 0 then none
  else
    match (sm2_do_encrypt prims rands key M).result with
    | none => none
    | some C => some (sm2_ciphertext_to_der C)

/-- Models `sm2_decrypt` (sm2_enc.c:406-424): DER decoding into a local
structure, rejection when the decoder did not consume the whole input,
then the core decrypt. The local structure starts uninitialized; its
contents never reach the result, it is modelled as zeroed. -/
def sm2_decrypt {Point : Type} (prims : SM2Prims Point) (key : SM2_KEY)
    (input : List Nat) (out0 : List Nat) : DecResult Point :=
  match (sm2_ciphertext_from_der zeroCiphertext input).1 with
  | some (C, rest) =>
    if rest.length = 0 then sm2_do_decrypt prims key C out0
    else
      { ret := -1, out := out0, outlen := none, locals := wipedDecLocals Point }
  | none =>
    { ret := -1, out := out0, outlen := none, locals := wipedDecLocals Point }

/-! ## Streaming facade (sm2_enc.c:425-599) -/

/-- Models `sm2_encrypt_init` / `sm2_decrypt_init` (identical bodies):
zeroed context with the key copied in. -/
def sm2_encrypt_init (key : SM2_KEY) : SM2_ENC_CTX :=
  { sm2_key := key, buf := [] }

/-- Models `sm2_encrypt_update` (sm2_enc.c:438-467): appends the chunk
to the accumulator; a null output pointer is a size query emitting
nothing. Returns the updated context and `*outlen`. -/
def sm2_encrypt_update (ctx : SM2_ENC_CTX) (inOpt : Option (List Nat))
    (outNull : Bool) : Option (SM2_ENC_CTX × Nat) :=
  if SM2_MAX_PLAINTEXT_SIZE < ctx.buf.length then none
  else if outNull then some (ctx, 0)
  else
    match inOpt with
    | some inb =>
      if SM2_MAX_PLAINTEXT_SIZE - ctx.buf.length < inb.length then none
      else some ({ ctx with buf := ctx.buf ++ inb }, 0)
    | none => some (ctx, 0)

/-- Models `sm2_decrypt_update` (sm2_enc.c:526-555): same with the
ciphertext-direction bound. -/
def sm2_decrypt_update (ctx : SM2_ENC_CTX) (inOpt : Option (List Nat))
    (outNull : Bool) : Option (SM2_ENC_CTX × Nat) :=
  if SM2_MAX_CIPHERTEXT_SIZE < ctx.buf.length then none
  else if outNull then some (ctx, 0)
  else
    match inOpt with
    | some inb =>
      if SM2_MAX_CIPHERTEXT_SIZE - ctx.buf.length < inb.length then none
      else some ({ ctx with buf := ctx.buf ++ inb }, 0)
    | none => some (ctx, 0)

/-- Models `sm2_encrypt_finish` (sm2_enc.c:469-511): with a null output
pointer it reports the maximum output size; with a non-empty
accumulator it appends the final chunk and runs the one-shot; with an
empty accumulator it requires a non-empty final chunk and runs the
one-shot on it directly. Returns `(*outlen, emitted bytes)`. -/
def sm2_encrypt_finish {Point : Type} (prims : SM2Prims Point)
    (rands : List (Option Nat)) (ctx : SM2_ENC_CTX) (inOpt : Option (List Nat))
    (outNull : Bool) : Option (Nat × List Nat) :=
  if SM2_MAX_PLAINTEXT_SIZE < ctx.buf.length then none
  else if outNull then some (SM2_MAX_CIPHERTEXT_SIZE, [])
  else if ctx.buf.length ≠ 0 then
    match inOpt with
    | some inb =>
      if SM2_MAX_PLAINTEXT_SIZE - ctx.buf.length < inb.length then none
      else
        match sm2_encrypt prims rands ctx.sm2_key (ctx.buf ++ inb) with
        | some der => some (der.length, der)
        | none => none
    | none =>
      match sm2_encrypt prims rands ctx.sm2_key ctx.buf with
      | some der => some (der.length, der)
      | none => none
  else
    match inOpt with
    | none => none
    | some inb =>
      if inb.length = 0 ∨ SM2_MAX_PLAINTEXT_SIZE < inb.length then none
      else
        match sm2_encrypt prims rands ctx.sm2_key inb with
        | some der => some (der.length, der)
        | none => none

/-- Models `sm2_decrypt_finish` (sm2_enc.c:557-599), against a
caller-supplied output buffer `out0`. Returns `(*outlen, buffer)`. -/
def sm2_decrypt_finish {Point : Type} (prims : SM2Prims Point) (ctx : SM2_ENC_CTX)
    (inOpt : Option (List Nat)) (outNull : Bool) (out0 : List Nat) :
    Option (Nat × List Nat) :=
  if SM2_MAX_CIPHERTEXT_SIZE < ctx.buf.length then none
  else if outNull then some (SM2_MAX_PLAINTEXT_SIZE, out0)
  else if ctx.buf.length ≠ 0 then
    match inOpt with
    | some inb =>
      if SM2_MAX_CIPHERTEXT_SIZE - ctx.buf.length < inb.length then none
      else
        let r := sm2_decrypt prims ctx.sm2_key (ctx.buf ++ inb) out0
        if r.ret = 1 then some (r.outlen.getD 0, r.out) else none
    | none =>
      let r := sm2_decrypt prims ctx.sm2_key ctx.buf out0
      if r.ret = 1 then some (r.outlen.getD 0, r.out) else none
  else
    match inOpt with
    | none => none
    | some inb =>
      if inb.length = 0 ∨ SM2_MAX_CIPHERTEXT_SIZE < inb.length then none
      else
        let r := sm2_decrypt prims ctx.sm2_key inb out0
        if r.ret = 1 then some (r.outlen.getD 0, r.out) else none

/-! ## Concrete instances for witnesses

A small commutative-group instance of the collaborator interface: the
point type is `Nat`, scalar multiplication is multiplication mod 97
with generator 7, serialization is 64-byte big-endian. It satisfies the
spec contracts the theorems hypothesize, at every input a witness
evaluates. -/

/-- Toy collaborator instance used by witnesses. -/
def toyPrims : SM2Prims Nat :=
  { pointFromBytes := beToNat,
    pointToBytes := natToBytesBE 64,
    pointMulGenerator := fun k => (k * 7) % 97,
    pointMul := fun s p => (s * p) % 97,
    pointIsOnCurve := fun _ => true,
    kdf := fun s n => List.replicate n ((s.foldl (fun a b => a + b) 0 + 1) % 256),
    sm3 := fun l => List.replicate 32 (l.foldl (fun a b => a + b) 0 % 256) }

/-- Toy instance whose KDF always returns the all-zero keystream,
driving the all-zero retry paths. -/
def toyPrimsZeroKdf : SM2Prims Nat :=
  { toyPrims with kdf := fun _ n => List.replicate n 0 }

/-- A concrete keypair for the toy instance: private scalar 3, public
point `3 * 7 mod 97 = 21`. -/
def toyKey : SM2_KEY :=
  { public_key := natToBytesBE 64 21, private_key := natToBytesBE 32 3 }

/-! ## Helper lemmas -/

/-- The head of a nonempty `dropWhile` result fails the predicate. -/
lemma dropWhile_head_false {p : Nat → Bool} :
    ∀ {l : List Nat} {b : Nat} {bs : List Nat},
      List.dropWhile p l = b :: bs → p b = false := by
  intro l
  induction l with
  | nil => intro b bs h; simp at h
  | cons a l ih =>
    intro b bs h
    rw [List.dropWhile_cons] at h
    by_cases hp : p a
    · exact ih (by simpa [hp] using h)
    · simp [hp] at h
      simpa [h.1] using hp

/-- `dropWhile` never lengthens a list. -/
lemma length_dropWhile_le (p : Nat → Bool) (l : List Nat) :
    (List.dropWhile p l).length ≤ l.length := by
  induction l with
  | nil => simp
  | cons a l ih =>
    rw [List.dropWhile_cons]
    by_cases hp : p a
    · simp only [hp, if_true]
      exact Nat.le_trans ih (by simp)
    · simp [hp]

/-- Xoring the same keystream twice recovers the message. -/
lemma gmssl_memxor_cancel :
    ∀ (t m : List Nat), t.length = m.length →
      gmssl_memxor t (gmssl_memxor t m) = m := by
  intro t
  induction t with
  | nil => intro m h; simp [gmssl_memxor] at h ⊢; exact (List.eq_nil_of_length_eq_zero h.symm).symm ▸ rfl
  | cons a t ih =>
    intro m h
    cases m with
    | nil => simp at h
    | cons b m =>
      simp only [gmssl_memxor, List.zipWith_cons_cons] at *
      rw [Nat.xor_cancel_left]
      exact congrArg (b :: ·) (ih m (by simpa using h))

/-- Length of a modelled DER length field. -/
lemma asn1_length_to_der_length_le (n : Nat) : (asn1_length_to_der n).length ≤ 3 := by
  unfold asn1_length_to_der
  by_cases h1 : n < 128
  · simp [h1]
  · by_cases h2 : n < 256
    · simp [h1, h2]
    · simp [h1, h2]

/-- Roundtrip of the modelled DER length encoding. -/
lemma asn1_length_roundtrip (n : Nat) (rest : List Nat) (h : n < 65536) :
    asn1_length_from_der (asn1_length_to_der n ++ rest) = some (n, rest) := by
  unfold asn1_length_to_der
  by_cases h1 : n < 128
  · simp [h1, asn1_length_from_der]
  · by_cases h2 : n < 256
    · simp [h1, h2, asn1_length_from_der]
    · simp [h1, h2, asn1_length_from_der]
      omega

/-- Roundtrip of the modelled DER TLV layer. -/
lemma asn1_tlv_roundtrip (tag : Nat) (content rest : List Nat)
    (h : content.length < 65536) :
    asn1_tlv_from_der tag
      (tag :: (asn1_length_to_der content.length ++ (content ++ rest))) =
      some (content, rest) := by
  simp only [asn1_tlv_from_der]
  rw [asn1_length_roundtrip _ _ h]
  have hle : content.length ≤ (content ++ rest).length := by simp
  simp [hle, List.take_left, List.drop_left]

/-- The unsigned payload the decoder recovers from the encoder's
INTEGER: the stripped buffer, or a single zero byte for the value 0. -/
def asn1_integer_payload (buf : List Nat) : List Nat :=
  match stripLeadingZeros buf with
  | [] => [0]
  | b :: bs => b :: bs

/-- Bound on the payload length. -/
lemma asn1_integer_payload_length_le (buf : List Nat) (h : 1 ≤ buf.length) :
    (asn1_integer_payload buf).length ≤ buf.length := by
  unfold asn1_integer_payload
  cases hs : stripLeadingZeros buf with
  | nil => simpa using h
  | cons b bs =>
    have := length_dropWhile_le (fun b => b == 0) buf
    rw [show List.dropWhile (fun b => b == 0) buf = stripLeadingZeros buf from rfl, hs] at this
    simpa using this

/-- Bound on the INTEGER content length. -/
lemma asn1_integer_content_length_le (buf : List Nat) :
    (asn1_integer_content buf).length ≤ buf.length + 1 := by
  unfold asn1_integer_content
  cases hs : stripLeadingZeros buf with
  | nil => simp
  | cons b bs =>
    have := length_dropWhile_le (fun b => b == 0) buf
    rw [show List.dropWhile (fun b => b == 0) buf = stripLeadingZeros buf from rfl, hs] at this
    by_cases hb : 128 ≤ b
    · simp only [hb, if_true]
      simpa using this
    · simp only [hb, if_false]
      simp only [List.length_cons] at this ⊢
      omega

/-- Roundtrip of the modelled DER INTEGER codec. -/
lemma asn1_integer_roundtrip (buf rest : List Nat) (h : buf.length ≤ 120) :
    asn1_integer_from_der (asn1_integer_to_der buf ++ rest) =
      some (asn1_integer_payload buf, rest) := by
  have hclen : (asn1_integer_content buf).length < 65536 := by
    have := asn1_integer_content_length_le buf
    omega
  have htlv : asn1_tlv_from_der 2 (asn1_integer_to_der buf ++ rest) =
      some (asn1_integer_content buf, rest) := by
    have : asn1_integer_to_der buf ++ rest =
        2 :: (asn1_length_to_der (asn1_integer_content buf).length ++
          (asn1_integer_content buf ++ rest)) := by
      simp [asn1_integer_to_der, List.append_assoc]
    rw [this]
    exact asn1_tlv_roundtrip 2 _ rest hclen
  unfold asn1_integer_from_der
  rw [htlv]
  unfold asn1_integer_content asn1_integer_payload
  cases hs : stripLeadingZeros buf with
  | nil => norm_num
  | cons b bs =>
    have hs2 : List.dropWhile (fun x => x == 0) buf = b :: bs := hs
    have hb0 := @dropWhile_head_false (fun x => x == 0) buf b bs hs2
    have hbne : b ≠ 0 := by simpa using hb0
    by_cases hb : 128 ≤ b
    · simp [hb]
    · simp [hb, hbne]

/-- Left-zero-padding the decoded payload restores the 32-byte
coordinate buffer. -/
lemma asn1_integer_payload_pad (buf : List Nat) (h : buf.length = 32) :
    List.replicate (32 - (asn1_integer_payload buf).length) 0 ++
      asn1_integer_payload buf = buf := by
  unfold asn1_integer_payload stripLeadingZeros
  have hsplit : List.takeWhile (fun b => b == 0) buf ++
      List.dropWhile (fun b => b == 0) buf = buf :=
    List.takeWhile_append_dropWhile (fun b => b == 0) buf
  have htw : List.takeWhile (fun b => b == 0) buf =
      List.replicate (List.takeWhile (fun b => b == 0) buf).length 0 := by
    apply List.eq_replicate_of_mem
    intro b hb
    have hmem := List.mem_takeWhile_imp hb
    simpa using hmem
  cases hs : List.dropWhile (fun b => b == 0) buf with
  | nil =>
    have hbuf : buf = List.replicate 32 0 := by
      have hall : ∀ x ∈ buf, x = 0 := by
        intro x hx
        have := (List.dropWhile_eq_nil_iff).1 hs x hx
        simpa using this
      have hrep := List.eq_replicate_of_mem hall
      rw [h] at hrep
      exact hrep
    rw [hbuf]
    show List.replicate 31 0 ++ [0] = List.replicate 32 0
    exact (List.replicate_succ' 31 0).symm
  | cons b bs =>
    rw [hs] at hsplit
    have hlen : (List.takeWhile (fun b => b == 0) buf).length = 32 - (b :: bs).length := by
      have h2 := congrArg List.length hsplit
      rw [h] at h2
      simp only [List.length_append] at h2
      omega
    rw [← hsplit]
    exact congrArg (fun l => l ++ b :: bs) (by rw [htw, hlen])

/-- Roundtrip of the modelled DER OCTET STRING codec. -/
lemma asn1_octet_string_roundtrip (buf rest : List Nat) (h : buf.length < 65536) :
    asn1_octet_string_from_der (asn1_octet_string_to_der buf ++ rest) =
      some (buf, rest) := by
  have : asn1_octet_string_to_der buf ++ rest =
      4 :: (asn1_length_to_der buf.length ++ (buf ++ rest)) := by
    simp [asn1_octet_string_to_der, List.append_assoc]
  rw [asn1_octet_string_from_der, this]
  exact asn1_tlv_roundtrip 4 buf rest h

/-- Roundtrip of the modelled DER SEQUENCE framing. -/
lemma asn1_sequence_roundtrip (body rest : List Nat) (h : body.length < 65536) :
    asn1_sequence_from_der ((asn1_sequence_header_to_der body.length ++ body) ++ rest) =
      some (body, rest) := by
  have : (asn1_sequence_header_to_der body.length ++ body) ++ rest =
      48 :: (asn1_length_to_der body.length ++ (body ++ rest)) := by
    simp [asn1_sequence_header_to_der, List.append_assoc]
  rw [asn1_sequence_from_der, this]
  exact asn1_tlv_roundtrip 48 body rest h

/-- Decoding an OCTET STRING that ends the buffer. -/
lemma asn1_octet_string_from_der_self (buf : List Nat) (h : buf.length < 65536) :
    asn1_octet_string_from_der (asn1_octet_string_to_der buf) = some (buf, []) := by
  have h2 := asn1_octet_string_roundtrip buf [] h
  simpa using h2

/-- The parsing stage of the codec inverts the encoder on a well-formed
ciphertext, for any trailing bytes `s`. -/
lemma sm2_ciphertext_parse_fields_roundtrip (C : SM2_CIPHERTEXT) (s : List Nat)
    (hx : C.x.length = 32) (hy : C.y.length = 32) (hh : C.hash.length = 32)
    (hsz : C.ciphertext_size ≤ 255) :
    sm2_ciphertext_parse_fields (sm2_ciphertext_to_der C ++ s) =
      some ((asn1_integer_payload C.x, asn1_integer_payload C.y, C.hash,
        C.ciphertext.take C.ciphertext_size), s) := by
  have hcx := asn1_integer_content_length_le C.x
  have hcy := asn1_integer_content_length_le C.y
  have hlx := asn1_length_to_der_length_le (asn1_integer_content C.x).length
  have hly := asn1_length_to_der_length_le (asn1_integer_content C.y).length
  have hlh := asn1_length_to_der_length_le C.hash.length
  have hctake : (C.ciphertext.take C.ciphertext_size).length ≤ 255 := by
    simp [List.length_take]
    omega
  have hlc := asn1_length_to_der_length_le (C.ciphertext.take C.ciphertext_size).length
  have hiX : (asn1_integer_to_der C.x).length ≤ 37 := by
    simp only [asn1_integer_to_der, List.length_cons, List.length_append]
    omega
  have hiY : (asn1_integer_to_der C.y).length ≤ 37 := by
    simp only [asn1_integer_to_der, List.length_cons, List.length_append]
    omega
  have hoH : (asn1_octet_string_to_der C.hash).length ≤ 36 := by
    simp only [asn1_octet_string_to_der, List.length_cons, List.length_append]
    omega
  have hoC : (asn1_octet_string_to_der (C.ciphertext.take C.ciphertext_size)).length ≤ 259 := by
    simp only [asn1_octet_string_to_der, List.length_cons, List.length_append]
    omega
  have hbody : (asn1_integer_to_der C.x ++ (asn1_integer_to_der C.y ++
      (asn1_octet_string_to_der C.hash ++
        asn1_octet_string_to_der (C.ciphertext.take C.ciphertext_size)))).length < 65536 := by
    simp only [List.length_append]
    omega
  have hto : sm2_ciphertext_to_der C ++ s =
      (asn1_sequence_header_to_der (asn1_integer_to_der C.x ++ (asn1_integer_to_der C.y ++
        (asn1_octet_string_to_der C.hash ++
          asn1_octet_string_to_der (C.ciphertext.take C.ciphertext_size)))).length ++
        (asn1_integer_to_der C.x ++ (asn1_integer_to_der C.y ++
          (asn1_octet_string_to_der C.hash ++
            asn1_octet_string_to_der (C.ciphertext.take C.ciphertext_size))))) ++ s := by
    simp [sm2_ciphertext_to_der]
  have hseq := asn1_sequence_roundtrip (asn1_integer_to_der C.x ++ (asn1_integer_to_der C.y ++
    (asn1_octet_string_to_der C.hash ++
      asn1_octet_string_to_der (C.ciphertext.take C.ciphertext_size)))) s hbody
  have hintx := asn1_integer_roundtrip C.x (asn1_integer_to_der C.y ++
    (asn1_octet_string_to_der C.hash ++
      asn1_octet_string_to_der (C.ciphertext.take C.ciphertext_size))) (by omega)
  have hinty := asn1_integer_roundtrip C.y (asn1_octet_string_to_der C.hash ++
    asn1_octet_string_to_der (C.ciphertext.take C.ciphertext_size)) (by omega)
  have hocth := asn1_octet_string_roundtrip C.hash
    (asn1_octet_string_to_der (C.ciphertext.take C.ciphertext_size)) (by omega)
  have hoctc := asn1_octet_string_from_der_self (C.ciphertext.take C.ciphertext_size)
    (by omega)
  have hpx : ¬ 32 < (asn1_integer_payload C.x).length := by
    have := asn1_integer_payload_length_le C.x (by omega)
    omega
  have hpy : ¬ 32 < (asn1_integer_payload C.y).length := by
    have := asn1_integer_payload_length_le C.y (by omega)
    omega
  unfold sm2_ciphertext_parse_fields
  rw [hto]
  simp only [hseq, hintx, hinty, hocth, hoctc, hpx, hpy, hh, if_false, if_true,
    ne_eq, not_true_eq_false, not_false_eq_true, List.length_nil]
  simp [SM2_MAX_PLAINTEXT_SIZE, Nat.not_lt.2 hctake]
  omega

/-- Full decoder/encoder roundtrip, with arbitrary trailing bytes left
unconsumed: on a well-formed ciphertext the decoder rebuilds exactly
the encoded structure. -/
lemma sm2_ciphertext_from_der_to_der (C C0 : SM2_CIPHERTEXT) (s : List Nat)
    (hx : C.x.length = 32) (hy : C.y.length = 32) (hh : C.hash.length = 32)
    (hsz : C.ciphertext_size = C.ciphertext.length)
    (hle : C.ciphertext.length ≤ 255)
    (hcurve : sm2_point_is_on_curve C.x C.y = true) :
    sm2_ciphertext_from_der C0 (sm2_ciphertext_to_der C ++ s) = (some (C, s), C) := by
  obtain ⟨cx, cy, ch, cc, cs⟩ := C
  have hx2 : cx.length = 32 := hx
  have hy2 : cy.length = 32 := hy
  have hh2 : ch.length = 32 := hh
  have hsz2 : cs = cc.length := hsz
  have hle2 : cc.length ≤ 255 := hle
  have hcurve2 : sm2_point_is_on_curve cx cy = true := hcurve
  have hparse := sm2_ciphertext_parse_fields_roundtrip ⟨cx, cy, ch, cc, cs⟩ s hx hy hh
    (show cs ≤ 255 by omega)
  have hpadx : List.replicate (32 - (asn1_integer_payload cx).length) 0 ++
      asn1_integer_payload cx = cx := asn1_integer_payload_pad cx hx2
  have hpady : List.replicate (32 - (asn1_integer_payload cy).length) 0 ++
      asn1_integer_payload cy = cy := asn1_integer_payload_pad cy hy2
  have htake : List.take cs cc = cc := by
    rw [hsz2]
    exact List.take_length cc
  have hmod : cc.length % 256 = cs := by
    rw [Nat.mod_eq_of_lt (by omega)]
    omega
  unfold sm2_ciphertext_from_der
  rw [hparse]
  simp only [zeroCiphertext, htake]
  simp [hpadx, hpady, hcurve2, hmod]

/-- Successful draws of a cons stream. -/
lemma randValues_cons_some (kv : Nat) (rest : List (Option Nat)) :
    randValues (some kv :: rest) = kv :: randValues rest := by
  simp [randValues]

/-- Inversion of the `sm2_do_encrypt` retry loop: a returned ciphertext
comes from some nonzero drawn scalar whose keystream was not all-zero,
and has exactly the attempt's shape. -/
lemma sm2_do_encrypt_loop_some {Point : Type} (prims : SM2Prims Point) (P : Point)
    (M : List Nat) :
    ∀ (rands : List (Option Nat)) (locals : EncLocals Point) (C : SM2_CIPHERTEXT),
      (sm2_do_encrypt_loop prims P M rands locals).result = some C →
      ∃ k, k ∈ randValues rands ∧ k ≠ 0 ∧
        all_zero (prims.kdf (prims.pointToBytes (prims.pointMul k P)) M.length) = false ∧
        C = encOut prims P M k := by
  intro rands
  induction rands with
  | nil => intro locals C h; simp [sm2_do_encrypt_loop] at h
  | cons r rest ih =>
    intro locals C h
    cases r with
    | none => simp [sm2_do_encrypt_loop] at h
    | some kv =>
      simp only [sm2_do_encrypt_loop] at h
      by_cases hk : kv = 0
      · rw [if_pos hk] at h
        obtain ⟨k, hmem, hrest⟩ := ih _ _ h
        exact ⟨k, by rw [randValues_cons_some]; exact List.mem_cons_of_mem _ hmem, hrest⟩
      · rw [if_neg hk] at h
        by_cases hz : all_zero (prims.kdf (prims.pointToBytes (prims.pointMul kv P)) M.length)
        · rw [if_pos hz] at h
          obtain ⟨k, hmem, hrest⟩ := ih _ _ h
          exact ⟨k, by rw [randValues_cons_some]; exact List.mem_cons_of_mem _ hmem, hrest⟩
        · rw [if_neg hz] at h
          simp only [Option.some.injEq] at h
          exact ⟨kv, by rw [randValues_cons_some]; exact List.mem_cons_self _ _, hk,
            by simpa using hz, h.symm⟩

/-- The `sm2_do_encrypt` loop wipes `k`, `kP` and `x2y2` on its success
exit. -/
lemma sm2_do_encrypt_loop_wipes {Point : Type} (prims : SM2Prims Point) (P : Point)
    (M : List Nat) :
    ∀ (rands : List (Option Nat)) (locals : EncLocals Point),
      (sm2_do_encrypt_loop prims P M rands locals).result.isSome = true →
      (sm2_do_encrypt_loop prims P M rands locals).locals = wipedEncLocals Point := by
  intro rands
  induction rands with
  | nil => intro locals h; simp [sm2_do_encrypt_loop] at h
  | cons r rest ih =>
    intro locals h
    cases r with
    | none => simp [sm2_do_encrypt_loop] at h
    | some kv =>
      simp only [sm2_do_encrypt_loop] at h ⊢
      by_cases hk : kv = 0
      · rw [if_pos hk] at h ⊢
        exact ih _ h
      · rw [if_neg hk] at h ⊢
        by_cases hz : all_zero (prims.kdf (prims.pointToBytes (prims.pointMul kv P)) M.length)
        · rw [if_pos hz] at h ⊢
          exact ih _ h
        · rw [if_neg hz] at h ⊢

/-- Inversion through the `sm2_do_encrypt` wrapper. -/
lemma sm2_do_encrypt_some {Point : Type} (prims : SM2Prims Point)
    (rands : List (Option Nat)) (key : SM2_KEY) (M : List Nat) (C : SM2_CIPHERTEXT)
    (h : (sm2_do_encrypt prims rands key M).result = some C) :
    ∃ k, k ∈ randValues rands ∧ k ≠ 0 ∧
      all_zero (prims.kdf (prims.pointToBytes
        (prims.pointMul k (prims.pointFromBytes key.public_key))) M.length) = false ∧
      C = encOut prims (prims.pointFromBytes key.public_key) M k := by
  unfold sm2_do_encrypt at h
  by_cases hb : SM2_MIN_PLAINTEXT_SIZE ≤ M.length ∧ M.length ≤ SM2_MAX_PLAINTEXT_SIZE
  · rw [if_pos hb] at h
    exact sm2_do_encrypt_loop_some prims _ M rands _ C h
  · rw [if_neg hb] at h
    simp at h

/-- Counter discipline of a fixed-length retry trace starting from `t`
remaining attempts: length-mismatch retries record the current counter
and consume one, all-zero retries record the current counter and
consume none, and exhaustion can only be the final event, at counter
zero. -/
def ctrOK : Nat → List FixEv → Bool
  | _, [] => true
  | t, .lenRetry _ tb :: rest => (tb == t) && decide (0 < t) && ctrOK (t - 1) rest
  | t, .zeroRetry _ tb :: rest => (tb == t) && ctrOK t rest
  | t, .exhausted _ :: rest => (t == 0) && rest.isEmpty

/-- The fixed-length loop's trace observes the counter discipline. -/
lemma sm2_do_encrypt_fixlen_loop_ctrOK {Point : Type} (prims : SM2Prims Point)
    (P : Point) (M : List Nat) (point_size : Nat) :
    ∀ (rands : List (Option Nat)) (trys : Nat) (locals : EncLocals Point),
      ctrOK trys (sm2_do_encrypt_fixlen_loop prims P M point_size rands trys locals).trace =
        true := by
  intro rands
  induction rands with
  | nil => intro trys locals; simp [sm2_do_encrypt_fixlen_loop, ctrOK]
  | cons r rest ih =>
    intro trys locals
    cases r with
    | none => simp [sm2_do_encrypt_fixlen_loop, ctrOK]
    | some kv =>
      simp only [sm2_do_encrypt_fixlen_loop]
      by_cases hk : kv = 0
      · rw [if_pos hk]
        exact ih _ _
      · rw [if_neg hk]
        by_cases htr : trys = 0
        · rw [if_pos htr]
          simp [ctrOK, htr]
        · rw [if_neg htr]
          by_cases hlen : measuredPointSize
              (prims.pointToBytes (prims.pointMulGenerator kv)) ≠ point_size
          · rw [if_pos hlen]
            have hpos : 0 < trys := Nat.pos_of_ne_zero htr
            simp [ctrOK, hpos, ih]
          · rw [if_neg hlen]
            by_cases hz : all_zero (prims.kdf
                (prims.pointToBytes (prims.pointMul kv P)) M.length)
            · rw [if_pos hz]
              simp [ctrOK, ih]
            · rw [if_neg hz]
              simp [ctrOK]

/-- `isLenRetry` on each constructor. -/
@[simp] lemma isLenRetry_lenRetry (k t : Nat) : (FixEv.lenRetry k t).isLenRetry = true := rfl

/-- `isLenRetry` is false on all-zero retries. -/
@[simp] lemma isLenRetry_zeroRetry (k t : Nat) : (FixEv.zeroRetry k t).isLenRetry = false := rfl

/-- `isLenRetry` is false on exhaustion. -/
@[simp] lemma isLenRetry_exhausted (k : Nat) : (FixEv.exhausted k).isLenRetry = false := rfl

/-- Under the counter discipline, at most `t` length-mismatch retries
occur. -/
lemma ctrOK_countP_le :
    ∀ (evs : List FixEv) (t : Nat), ctrOK t evs = true →
      evs.countP (fun e => e.isLenRetry) ≤ t := by
  intro evs
  induction evs with
  | nil => intro t _; simp
  | cons e rest ih =>
    intro t h
    cases e with
    | lenRetry k tb =>
      simp only [ctrOK, Bool.and_eq_true, beq_iff_eq, decide_eq_true_eq] at h
      have hrec := ih (t - 1) h.2
      have h0 := h.1.2
      simp [List.countP_cons]
      omega
    | zeroRetry k tb =>
      simp only [ctrOK, Bool.and_eq_true, beq_iff_eq] at h
      have hrec := ih t h.2
      simp [List.countP_cons]
      omega
    | exhausted k =>
      simp only [ctrOK, Bool.and_eq_true, beq_iff_eq, List.isEmpty_iff] at h
      simp [h.2, List.countP_cons, h.1]

/-- Under the counter discipline, an exhaustion event means exactly `t`
length-mismatch retries were consumed before it. -/
lemma ctrOK_exhausted_countP :
    ∀ (evs : List FixEv) (t : Nat) (k : Nat), ctrOK t evs = true →
      FixEv.exhausted k ∈ evs →
      evs.countP (fun e => e.isLenRetry) = t := by
  intro evs
  induction evs with
  | nil => intro t k _ hmem; simp at hmem
  | cons e rest ih =>
    intro t k h hmem
    cases e with
    | lenRetry k2 tb =>
      simp only [ctrOK, Bool.and_eq_true, beq_iff_eq, decide_eq_true_eq] at h
      have hmem2 : FixEv.exhausted k ∈ rest := by
        rcases List.mem_cons.1 hmem with h1 | h1
        · exact absurd h1 (by simp)
        · exact h1
      have hrec := ih (t - 1) k h.2 hmem2
      have h0 := h.1.2
      simp [List.countP_cons]
      omega
    | zeroRetry k2 tb =>
      simp only [ctrOK, Bool.and_eq_true, beq_iff_eq] at h
      have hmem2 : FixEv.exhausted k ∈ rest := by
        rcases List.mem_cons.1 hmem with h1 | h1
        · exact absurd h1 (by simp)
        · exact h1
      have hrec := ih t k h.2 hmem2
      simp [List.countP_cons]
      omega
    | exhausted k2 =>
      simp only [ctrOK, Bool.and_eq_true, beq_iff_eq, List.isEmpty_iff] at h
      simp [h.2, List.countP_cons, h.1]

/-- An exhaustion event in the fixed-length loop's trace means the call
failed and the final state has `k` wiped (only `k`: sm2_enc.c:172). -/
lemma sm2_do_encrypt_fixlen_loop_exhausted {Point : Type} (prims : SM2Prims Point)
    (P : Point) (M : List Nat) (point_size : Nat) :
    ∀ (rands : List (Option Nat)) (trys : Nat) (locals : EncLocals Point) (k : Nat),
      FixEv.exhausted k ∈
          (sm2_do_encrypt_fixlen_loop prims P M point_size rands trys locals).trace →
      (sm2_do_encrypt_fixlen_loop prims P M point_size rands trys locals).result = none ∧
      (sm2_do_encrypt_fixlen_loop prims P M point_size rands trys locals).locals.k = 0 := by
  intro rands
  induction rands with
  | nil => intro trys locals k h; simp [sm2_do_encrypt_fixlen_loop] at h
  | cons r rest ih =>
    intro trys locals k h
    cases r with
    | none => simp [sm2_do_encrypt_fixlen_loop] at h
    | some kv =>
      simp only [sm2_do_encrypt_fixlen_loop] at h ⊢
      by_cases hk : kv = 0
      · rw [if_pos hk] at h ⊢
        exact ih _ _ _ h
      · rw [if_neg hk] at h ⊢
        by_cases htr : trys = 0
        · rw [if_pos htr] at h ⊢
          exact ⟨rfl, rfl⟩
        · rw [if_neg htr] at h ⊢
          by_cases hlen : measuredPointSize
              (prims.pointToBytes (prims.pointMulGenerator kv)) ≠ point_size
          · rw [if_pos hlen] at h ⊢
            have hmem : FixEv.exhausted k ∈
                (sm2_do_encrypt_fixlen_loop prims P M point_size rest (trys - 1)
                  { locals with k := kv }).trace := by
              rcases List.mem_cons.1 h with h1 | h1
              · exact absurd h1 (by simp)
              · exact h1
            exact ih _ _ _ hmem
          · rw [if_neg hlen] at h ⊢
            by_cases hz : all_zero (prims.kdf
                (prims.pointToBytes (prims.pointMul kv P)) M.length)
            · rw [if_pos hz] at h ⊢
              have hmem : FixEv.exhausted k ∈
                  (sm2_do_encrypt_fixlen_loop prims P M point_size rest trys
                    { k := kv, kP := some (prims.pointMul kv P),
                      x2y2 := prims.pointToBytes (prims.pointMul kv P) }).trace := by
                rcases List.mem_cons.1 h with h1 | h1
                · exact absurd h1 (by simp)
                · exact h1
              exact ih _ _ _ hmem
            · rw [if_neg hz] at h
              simp at h

/-- Every length-mismatch retry event records a nonzero live `k`: the
retry consumed no wipe. -/
lemma sm2_do_encrypt_fixlen_loop_lenRetry_live {Point : Type} (prims : SM2Prims Point)
    (P : Point) (M : List Nat) (point_size : Nat) :
    ∀ (rands : List (Option Nat)) (trys : Nat) (locals : EncLocals Point) (k tb : Nat),
      FixEv.lenRetry k tb ∈
          (sm2_do_encrypt_fixlen_loop prims P M point_size rands trys locals).trace →
      k ≠ 0 := by
  intro rands
  induction rands with
  | nil => intro trys locals k tb h; simp [sm2_do_encrypt_fixlen_loop] at h
  | cons r rest ih =>
    intro trys locals k tb h
    cases r with
    | none => simp [sm2_do_encrypt_fixlen_loop] at h
    | some kv =>
      simp only [sm2_do_encrypt_fixlen_loop] at h
      by_cases hk : kv = 0
      · rw [if_pos hk] at h
        exact ih _ _ _ _ h
      · rw [if_neg hk] at h
        by_cases htr : trys = 0
        · rw [if_pos htr] at h
          simp at h
        · rw [if_neg htr] at h
          by_cases hlen : measuredPointSize
              (prims.pointToBytes (prims.pointMulGenerator kv)) ≠ point_size
          · rw [if_pos hlen] at h
            rcases List.mem_cons.1 h with h1 | h1
            · have : k = kv := by
                cases h1
                rfl
              rw [this]
              exact hk
            · exact ih _ _ _ _ h1
          · rw [if_neg hlen] at h
            by_cases hz : all_zero (prims.kdf
                (prims.pointToBytes (prims.pointMul kv P)) M.length)
            · rw [if_pos hz] at h
              rcases List.mem_cons.1 h with h1 | h1
              · exact absurd h1 (by simp)
              · exact ih _ _ _ _ h1
            · rw [if_neg hz] at h
              simp at h

/-- The fixed-length loop wipes all three secret locals on its success
exit. -/
lemma sm2_do_encrypt_fixlen_loop_wipes {Point : Type} (prims : SM2Prims Point)
    (P : Point) (M : List Nat) (point_size : Nat) :
    ∀ (rands : List (Option Nat)) (trys : Nat) (locals : EncLocals Point),
      (sm2_do_encrypt_fixlen_loop prims P M point_size rands trys locals).result.isSome =
        true →
      (sm2_do_encrypt_fixlen_loop prims P M point_size rands trys locals).locals =
        wipedEncLocals Point := by
  intro rands
  induction rands with
  | nil => intro trys locals h; simp [sm2_do_encrypt_fixlen_loop] at h
  | cons r rest ih =>
    intro trys locals h
    cases r with
    | none => simp [sm2_do_encrypt_fixlen_loop] at h
    | some kv =>
      simp only [sm2_do_encrypt_fixlen_loop] at h ⊢
      by_cases hk : kv = 0
      · rw [if_pos hk] at h ⊢
        exact ih _ _ h
      · rw [if_neg hk] at h ⊢
        by_cases htr : trys = 0
        · rw [if_pos htr] at h
          simp at h
        · rw [if_neg htr] at h ⊢
          by_cases hlen : measuredPointSize
              (prims.pointToBytes (prims.pointMulGenerator kv)) ≠ point_size
          · rw [if_pos hlen] at h ⊢
            exact ih _ _ h
          · rw [if_neg hlen] at h ⊢
            by_cases hz : all_zero (prims.kdf
                (prims.pointToBytes (prims.pointMul kv P)) M.length)
            · rw [if_pos hz] at h ⊢
              exact ih _ _ h
            · rw [if_neg hz] at h ⊢

/-- C1: For every plaintext M with MIN_PLAINTEXT <= |M| <= MAX_PLAINTEXT
and every valid keypair (d, P = d*G), decrypting with d the ciphertext
produced by encrypting M under P returns exactly M: `sm2_do_decrypt`
applied to a successful `sm2_do_encrypt` output returns 1, sets
`*outlen = |M|`, and writes M to the output buffer. The hypotheses
`hshared` and `honc` are the spec's contracts for the external curve
arithmetic (section 6: the curve group is abelian with `P = d*G`, and
generator multiples serialize to on-curve points), stated at the drawn
scalars. -/
theorem C1_roundtrip {Point : Type} (prims : SM2Prims Point)
    (rands : List (Option Nat)) (key : SM2_KEY) (M : List Nat) (C : SM2_CIPHERTEXT)
    (out0 : List Nat)
    (hkdflen : ∀ s n, (prims.kdf s n).length = n)
    (hshared : ∀ k ∈ randValues rands,
      prims.pointMul (sm2_z256_from_bytes key.private_key)
        (prims.pointFromBytes (prims.pointToBytes (prims.pointMulGenerator k))) =
      prims.pointMul k (prims.pointFromBytes key.public_key))
    (honc : ∀ k ∈ randValues rands,
      prims.pointIsOnCurve
        (prims.pointFromBytes (prims.pointToBytes (prims.pointMulGenerator k))) = true)
    (henc : (sm2_do_encrypt prims rands key M).result = some C) :
    (sm2_do_decrypt prims key C out0).ret = 1 ∧
    (sm2_do_decrypt prims key C out0).outlen = some M.length ∧
    (sm2_do_decrypt prims key C out0).out.take M.length = M := by
  obtain ⟨k, hmem, hk0, hz, hC⟩ := sm2_do_encrypt_some prims rands key M C henc
  subst hC
  have hxy : (encOut prims (prims.pointFromBytes key.public_key) M k).x ++
      (encOut prims (prims.pointFromBytes key.public_key) M k).y =
      prims.pointToBytes (prims.pointMulGenerator k) := by
    simp [encOut, List.take_append_drop]
  have hsize : (encOut prims (prims.pointFromBytes key.public_key) M k).ciphertext_size =
      M.length := rfl
  have hbody : (encOut prims (prims.pointFromBytes key.public_key) M k).ciphertext =
      gmssl_memxor (prims.kdf (prims.pointToBytes
        (prims.pointMul k (prims.pointFromBytes key.public_key))) M.length) M := rfl
  have hpt : dec_point prims key (encOut prims (prims.pointFromBytes key.public_key) M k) =
      prims.pointMul k (prims.pointFromBytes key.public_key) := by
    unfold dec_point
    rw [hxy]
    exact hshared k hmem
  have hx2y2 : dec_x2y2 prims key (encOut prims (prims.pointFromBytes key.public_key) M k) =
      prims.pointToBytes (prims.pointMul k (prims.pointFromBytes key.public_key)) := by
    unfold dec_x2y2
    rw [hpt]
  have ht : dec_t prims key (encOut prims (prims.pointFromBytes key.public_key) M k) =
      prims.kdf (prims.pointToBytes
        (prims.pointMul k (prims.pointFromBytes key.public_key))) M.length := by
    unfold dec_t
    rw [hx2y2, hsize]
  have htlen : (dec_t prims key
      (encOut prims (prims.pointFromBytes key.public_key) M k)).length = M.length := by
    rw [ht]
    exact hkdflen _ _
  have hout1take : (dec_out1 prims key
      (encOut prims (prims.pointFromBytes key.public_key) M k) out0).take
        (encOut prims (prims.pointFromBytes key.public_key) M k).ciphertext_size =
      dec_t prims key (encOut prims (prims.pointFromBytes key.public_key) M k) := by
    rw [hsize]
    unfold dec_out1 writeBytes
    exact List.take_left' htlen
  have hz2 : all_zero ((dec_out1 prims key
      (encOut prims (prims.pointFromBytes key.public_key) M k) out0).take
        (encOut prims (prims.pointFromBytes key.public_key) M k).ciphertext_size) =
      false := by
    rw [hout1take, ht]
    exact hz
  have hbodytake : ((encOut prims (prims.pointFromBytes key.public_key) M k).ciphertext.take
      (encOut prims (prims.pointFromBytes key.public_key) M k).ciphertext_size) =
      (encOut prims (prims.pointFromBytes key.public_key) M k).ciphertext := by
    rw [hsize, hbody]
    apply List.take_of_length_le
    simp [gmssl_memxor]
  have hMrec : dec_M prims key (encOut prims (prims.pointFromBytes key.public_key) M k)
      out0 = M := by
    unfold dec_M
    rw [hout1take, hbodytake, ht, hbody]
    exact gmssl_memxor_cancel _ _ (by rw [hkdflen])
  have hout2take : (dec_out2 prims key
      (encOut prims (prims.pointFromBytes key.public_key) M k) out0).take
        (encOut prims (prims.pointFromBytes key.public_key) M k).ciphertext_size =
      M := by
    rw [hsize]
    unfold dec_out2 writeBytes
    rw [hMrec]
    exact List.take_left' rfl
  have hu : dec_u prims key (encOut prims (prims.pointFromBytes key.public_key) M k)
      out0 = (encOut prims (prims.pointFromBytes key.public_key) M k).hash := by
    unfold dec_u
    rw [hx2y2, hout2take]
    rfl
  have hz2m : all_zero ((dec_out1 prims key
      (encOut prims (prims.pointFromBytes key.public_key) M k) out0).take M.length) =
      false := by
    rw [← hsize]
    exact hz2
  have hout2m : (dec_out2 prims key
      (encOut prims (prims.pointFromBytes key.public_key) M k) out0).take M.length = M := by
    rw [← hsize]
    exact hout2take
  unfold sm2_do_decrypt
  rw [hxy]
  simp [honc k hmem, hsize, hz2m, hu, hout2m]

/-- The concrete ciphertext produced by the toy-instance encryption of
`[10, 20]` under `toyKey` with ephemeral draw 2 (used by witnesses). -/
def toyC : SM2_CIPHERTEXT :=
  { x := List.replicate 32 0, y := List.replicate 31 0 ++ [14],
    hash := List.replicate 32 72, ciphertext := [33, 63], ciphertext_size := 2 }

/-- Witness for C1 at a concrete toy-instance run. -/
theorem C1_roundtrip_witness :
    (sm2_do_decrypt toyPrims toyKey toyC (List.replicate 4 0)).ret = 1 ∧
    (sm2_do_decrypt toyPrims toyKey toyC (List.replicate 4 0)).outlen = some 2 ∧
    (sm2_do_decrypt toyPrims toyKey toyC (List.replicate 4 0)).out.take 2 = [10, 20] := by
  have h := C1_roundtrip toyPrims [some 2] toyKey [10, 20] toyC (List.replicate 4 0)
    (fun s n => by simp [toyPrims]) (by decide) (by decide) (by decide)
  simpa using h

/-- C2: Both encryption and decryption compute the 32-byte tag as SM3
over `x2 || M || y2` — the message hashed between the two 32-byte halves
of the shared-secret coordinates — and encryption stores it in the
`hash` field: a successful `sm2_do_encrypt` output's `hash` is exactly
`SM3(x2 || M || y2)` for the drawn scalar, and (on the non-all-zero,
on-curve path) `sm2_do_decrypt` succeeds precisely when the stored tag
equals `SM3(x2 || M || y2)` recomputed with the recovered message
between the coordinate halves. -/
theorem C2_tag_layout {Point : Type} (prims : SM2Prims Point)
    (rands : List (Option Nat)) (key : SM2_KEY) (M : List Nat) (C : SM2_CIPHERTEXT)
    (key2 : SM2_KEY) (Cin : SM2_CIPHERTEXT) (out0 : List Nat)
    (henc : (sm2_do_encrypt prims rands key M).result = some C)
    (honc2 : prims.pointIsOnCurve (prims.pointFromBytes (Cin.x ++ Cin.y)) = true)
    (hnz : all_zero ((dec_out1 prims key2 Cin out0).take Cin.ciphertext_size) = false) :
    (∃ k ∈ randValues rands,
      C.hash = prims.sm3
        ((prims.pointToBytes (prims.pointMul k
            (prims.pointFromBytes key.public_key))).take 32 ++ M ++
         (prims.pointToBytes (prims.pointMul k
            (prims.pointFromBytes key.public_key))).drop 32)) ∧
    ((sm2_do_decrypt prims key2 Cin out0).ret = 1 ↔
      Cin.hash = prims.sm3 ((dec_x2y2 prims key2 Cin).take 32 ++
        (dec_out2 prims key2 Cin out0).take Cin.ciphertext_size ++
        (dec_x2y2 prims key2 Cin).drop 32)) := by
  constructor
  · obtain ⟨k, hmem, hk0, hz, hC⟩ := sm2_do_encrypt_some prims rands key M C henc
    refine ⟨k, hmem, ?_⟩
    rw [hC]
    rfl
  · have hrfl : prims.sm3 ((dec_x2y2 prims key2 Cin).take 32 ++
        (dec_out2 prims key2 Cin out0).take Cin.ciphertext_size ++
        (dec_x2y2 prims key2 Cin).drop 32) = dec_u prims key2 Cin out0 := rfl
    rw [hrfl]
    unfold sm2_do_decrypt
    by_cases hhash : Cin.hash = dec_u prims key2 Cin out0
    · simp [honc2, hnz, hhash]
    · simp [honc2, hnz, hhash]

/-- Witness for C2 at a concrete toy-instance run. -/
theorem C2_tag_layout_witness :
    (∃ k ∈ randValues [some 2],
      toyC.hash = toyPrims.sm3
        ((toyPrims.pointToBytes (toyPrims.pointMul k
            (toyPrims.pointFromBytes toyKey.public_key))).take 32 ++ [10, 20] ++
         (toyPrims.pointToBytes (toyPrims.pointMul k
            (toyPrims.pointFromBytes toyKey.public_key))).drop 32)) ∧
    ((sm2_do_decrypt toyPrims toyKey toyC (List.replicate 4 0)).ret = 1 ↔
      toyC.hash = toyPrims.sm3 ((dec_x2y2 toyPrims toyKey toyC).take 32 ++
        (dec_out2 toyPrims toyKey toyC (List.replicate 4 0)).take toyC.ciphertext_size ++
        (dec_x2y2 toyPrims toyKey toyC).drop 32)) :=
  C2_tag_layout toyPrims [some 2] toyKey [10, 20] toyC toyKey toyC (List.replicate 4 0)
    (by decide) (by decide) (by decide)

/-- C3: For every well-formed in-memory ciphertext (32-byte coordinates
of an on-curve point, 32-byte hash, body of 1..MAX_PLAINTEXT bytes with
`ciphertext_size` equal to its length), decoding the DER bytes produced
by encoding yields the ciphertext back — all four fields and
`ciphertext_size` included — with the whole input consumed and for any
initial value of the caller's structure. -/
theorem C3_der_roundtrip (C C0 : SM2_CIPHERTEXT)
    (hx : C.x.length = 32) (hy : C.y.length = 32) (hh : C.hash.length = 32)
    (hsz : C.ciphertext_size = C.ciphertext.length)
    (hmin : 1 ≤ C.ciphertext.length) (hmax : C.ciphertext.length ≤ SM2_MAX_PLAINTEXT_SIZE)
    (hcurve : sm2_point_is_on_curve C.x C.y = true) :
    (sm2_ciphertext_from_der C0 (sm2_ciphertext_to_der C)).1 = some (C, []) := by
  have h := sm2_ciphertext_from_der_to_der C C0 [] hx hy hh hsz hmax hcurve
  rw [List.append_nil] at h
  rw [h]

/-- The base point of the SM2 curve, x coordinate (GB/T 32918). -/
def sm2GxBytes : List Nat :=
  [0x32, 0xC4, 0xAE, 0x2C, 0x1F, 0x19, 0x81, 0x19, 0x5F, 0x99, 0x04, 0x46, 0x6A, 0x39,
   0xC9, 0x94, 0x8F, 0xE3, 0x0B, 0xBF, 0xF2, 0x66, 0x0B, 0xE1, 0x71, 0x5A, 0x45, 0x89,
   0x33, 0x4C, 0x74, 0xC7]

/-- The base point of the SM2 curve, y coordinate. -/
def sm2GyBytes : List Nat :=
  [0xBC, 0x37, 0x36, 0xA2, 0xF4, 0xF6, 0x77, 0x9C, 0x59, 0xBD, 0xCE, 0xE3, 0x6B, 0x69,
   0x21, 0x53, 0xD0, 0xA9, 0x87, 0x7C, 0xC6, 0x2A, 0x47, 0x40, 0x02, 0xDF, 0x32, 0xE5,
   0x21, 0x39, 0xF0, 0xA0]

/-- A well-formed concrete ciphertext whose point is the SM2 base point
(used by codec witnesses). -/
def gC : SM2_CIPHERTEXT :=
  { x := sm2GxBytes, y := sm2GyBytes, hash := List.replicate 32 7,
    ciphertext := [1], ciphertext_size := 1 }

/-- Witness for C3 on a concrete on-curve ciphertext. -/
theorem C3_der_roundtrip_witness :
    (sm2_ciphertext_from_der zeroCiphertext (sm2_ciphertext_to_der gC)).1 =
      some (gC, []) :=
  C3_der_roundtrip gC zeroCiphertext (by decide) (by decide) (by decide) (by decide)
    (by decide) (by decide) (by decide)

/-- C7: Decoding rejects trailing bytes. For every well-formed
ciphertext and non-empty suffix `s`, `sm2_ciphertext_from_der` stops at
the end of the SEQUENCE leaving exactly `s` unconsumed, and the decode
stage of `sm2_decrypt` (which additionally requires the decoder to have
consumed the full slice, sm2_enc.c:414-415) therefore rejects the input
with -1, for every key. -/
theorem C7_trailing_reject {Point : Type} (prims : SM2Prims Point) (key : SM2_KEY)
    (C : SM2_CIPHERTEXT) (s out0 : List Nat)
    (hx : C.x.length = 32) (hy : C.y.length = 32) (hh : C.hash.length = 32)
    (hsz : C.ciphertext_size = C.ciphertext.length)
    (hmax : C.ciphertext.length ≤ SM2_MAX_PLAINTEXT_SIZE)
    (hcurve : sm2_point_is_on_curve C.x C.y = true)
    (hs : s ≠ []) :
    (sm2_ciphertext_from_der zeroCiphertext (sm2_ciphertext_to_der C ++ s)).1 =
      some (C, s) ∧
    (sm2_decrypt prims key (sm2_ciphertext_to_der C ++ s) out0).ret = -1 := by
  have h := sm2_ciphertext_from_der_to_der C zeroCiphertext s hx hy hh hsz hmax hcurve
  constructor
  · rw [h]
  · unfold sm2_decrypt
    rw [h]
    simp [List.length_eq_zero, hs]

/-- Witness for C7 on a concrete on-curve ciphertext with one trailing
byte. -/
theorem C7_trailing_reject_witness :
    (sm2_ciphertext_from_der zeroCiphertext (sm2_ciphertext_to_der gC ++ [0])).1 =
      some (gC, [0]) ∧
    (sm2_decrypt toyPrims toyKey (sm2_ciphertext_to_der gC ++ [0]) []).ret = -1 :=
  C7_trailing_reject toyPrims toyKey gC [0] [] (by decide) (by decide) (by decide)
    (by decide) (by decide) (by decide) (by decide)

/-- C6 (amended): when `sm2_ciphertext_from_der` fails, the failure is
the single flat error value, and the caller's structure is either
untouched (every parse failure) or — exactly when all four elements
parsed but the point is off-curve — already zeroed with the
left-padded coordinates copied in (sm2_enc.c:324-330 run before the
on-curve check). -/
theorem C6_failure_state (C0 : SM2_CIPHERTEXT) (input : List Nat)
    (h : (sm2_ciphertext_from_der C0 input).1 = none) :
    (sm2_ciphertext_from_der C0 input).2 = C0 ∨
    ((sm2_ciphertext_from_der C0 input).2.hash = List.replicate 32 0 ∧
     (sm2_ciphertext_from_der C0 input).2.ciphertext = [] ∧
     (sm2_ciphertext_from_der C0 input).2.ciphertext_size = 0 ∧
     sm2_point_is_on_curve (sm2_ciphertext_from_der C0 input).2.x
       (sm2_ciphertext_from_der C0 input).2.y = false) := by
  unfold sm2_ciphertext_from_der at h ⊢
  cases hp : sm2_ciphertext_parse_fields input with
  | none => left; simp [hp]
  | some v =>
    obtain ⟨⟨x, y, hsh, c⟩, rest⟩ := v
    rw [hp] at h
    by_cases hcur : sm2_point_is_on_curve
        (List.replicate (32 - x.length) 0 ++ x) (List.replicate (32 - y.length) 0 ++ y)
    · simp [zeroCiphertext, hcur] at h
    · right
      simp [hp, zeroCiphertext, hcur]

/-- Witness for the amended C6 on a concrete parse failure (empty
input): the structure is untouched. -/
theorem C6_failure_state_witness :
    (sm2_ciphertext_from_der gC []).2 = gC ∨
    ((sm2_ciphertext_from_der gC []).2.hash = List.replicate 32 0 ∧
     (sm2_ciphertext_from_der gC []).2.ciphertext = [] ∧
     (sm2_ciphertext_from_der gC []).2.ciphertext_size = 0 ∧
     sm2_point_is_on_curve (sm2_ciphertext_from_der gC []).2.x
       (sm2_ciphertext_from_der gC []).2.y = false) :=
  C6_failure_state gC [] (by decide)

/-- A syntactically valid DER ciphertext whose point `(1, 1)` is not on
the SM2 curve. -/
def offCurveDer : List Nat :=
  [48, 43, 2, 1, 1, 2, 1, 1, 4, 32] ++ List.replicate 32 7 ++ [4, 1, 170]

/-- A caller structure with visibly nonzero fields. -/
def dirtyC : SM2_CIPHERTEXT :=
  { x := List.replicate 32 1, y := List.replicate 32 1, hash := List.replicate 32 1,
    ciphertext := [1], ciphertext_size := 1 }

/-- Counterexample to C6 as stated: on the off-curve failure path the
caller's structure IS modified — `sm2_ciphertext_from_der` fails, yet
the structure no longer equals its initial value (it has been zeroed
and the decoded coordinates copied in). -/
theorem C6_counterexample :
    (sm2_ciphertext_from_der dirtyC offCurveDer).1 = none ∧
    (sm2_ciphertext_from_der dirtyC offCurveDer).2 ≠ dirtyC ∧
    (sm2_ciphertext_from_der dirtyC offCurveDer).2.x = List.replicate 31 0 ++ [1] := by
  refine ⟨by decide, by decide, by decide⟩

/-- C8: The two decryption-failure causes — all-zero KDF keystream and
integrity-tag mismatch — produce the same result: `sm2_do_decrypt`
returns the single flat value -1 in both cases, with no distinguishing
sub-reason in the return value. -/
theorem C8_failure_indistinguishable {Point : Type} (prims : SM2Prims Point)
    (key : SM2_KEY) (Cin : SM2_CIPHERTEXT) (out0 : List Nat)
    (honc : prims.pointIsOnCurve (prims.pointFromBytes (Cin.x ++ Cin.y)) = true)
    (hfail : all_zero ((dec_out1 prims key Cin out0).take Cin.ciphertext_size) = true ∨
      (all_zero ((dec_out1 prims key Cin out0).take Cin.ciphertext_size) = false ∧
       Cin.hash ≠ dec_u prims key Cin out0)) :
    (sm2_do_decrypt prims key Cin out0).ret = -1 := by
  unfold sm2_do_decrypt
  rcases hfail with hf | ⟨hnz, hne⟩
  · simp [honc, hf]
  · simp [honc, hnz, hne]

/-- Witness for C8: the all-zero-keystream case at a concrete input. -/
theorem C8_failure_indistinguishable_witness :
    (sm2_do_decrypt toyPrimsZeroKdf toyKey toyC []).ret = -1 :=
  C8_failure_indistinguishable toyPrimsZeroKdf toyKey toyC [] (by decide)
    (Or.inl (by decide))

/-- C10: On the integrity-tag-mismatch failure path of `sm2_do_decrypt`
the caller's output buffer has already been overwritten with the
candidate plaintext (body xor keystream) and `*outlen` has already been
set to the body length, even though the call returns -1; nothing is
rolled back or cleared. -/
theorem C10_tag_mismatch_output {Point : Type} (prims : SM2Prims Point)
    (key : SM2_KEY) (Cin : SM2_CIPHERTEXT) (out0 : List Nat)
    (hkdflen : (dec_t prims key Cin).length = Cin.ciphertext_size)
    (hct : Cin.ciphertext.length = Cin.ciphertext_size)
    (honc : prims.pointIsOnCurve (prims.pointFromBytes (Cin.x ++ Cin.y)) = true)
    (hnz : all_zero ((dec_out1 prims key Cin out0).take Cin.ciphertext_size) = false)
    (hne : Cin.hash ≠ dec_u prims key Cin out0) :
    (sm2_do_decrypt prims key Cin out0).ret = -1 ∧
    (sm2_do_decrypt prims key Cin out0).outlen = some Cin.ciphertext_size ∧
    (sm2_do_decrypt prims key Cin out0).out = dec_out2 prims key Cin out0 ∧
    (sm2_do_decrypt prims key Cin out0).out.take Cin.ciphertext_size =
      gmssl_memxor (dec_t prims key Cin) Cin.ciphertext := by
  have h1 : (dec_out1 prims key Cin out0).take Cin.ciphertext_size =
      dec_t prims key Cin := by
    unfold dec_out1 writeBytes
    exact List.take_left' hkdflen
  have h2 : Cin.ciphertext.take Cin.ciphertext_size = Cin.ciphertext := by
    rw [← hct]
    exact List.take_length _
  have h3 : dec_M prims key Cin out0 =
      gmssl_memxor (dec_t prims key Cin) Cin.ciphertext := by
    unfold dec_M
    rw [h1, h2]
  have h4 : (dec_M prims key Cin out0).length = Cin.ciphertext_size := by
    rw [h3]
    simp [gmssl_memxor, hkdflen, hct]
  have h5 : (dec_out2 prims key Cin out0).take Cin.ciphertext_size =
      dec_M prims key Cin out0 := by
    unfold dec_out2 writeBytes
    exact List.take_left' h4
  unfold sm2_do_decrypt
  simp [honc, hnz, hne, h5, h3]

/-- `toyC` with a corrupted tag. -/
def toyCbadTag : SM2_CIPHERTEXT :=
  { toyC with hash := List.replicate 32 9 }

/-- Witness for C10 at a concrete tag-mismatch run. -/
theorem C10_tag_mismatch_output_witness :
    (sm2_do_decrypt toyPrims toyKey toyCbadTag []).ret = -1 ∧
    (sm2_do_decrypt toyPrims toyKey toyCbadTag []).outlen =
      some toyCbadTag.ciphertext_size ∧
    (sm2_do_decrypt toyPrims toyKey toyCbadTag []).out =
      dec_out2 toyPrims toyKey toyCbadTag [] ∧
    (sm2_do_decrypt toyPrims toyKey toyCbadTag []).out.take
        toyCbadTag.ciphertext_size =
      gmssl_memxor (dec_t toyPrims toyKey toyCbadTag) toyCbadTag.ciphertext :=
  C10_tag_mismatch_output toyPrims toyKey toyCbadTag [] (by decide) (by decide)
    (by decide) (by decide) (by decide)

/-- C9: Empty input is rejected on the encrypt path: `sm2_encrypt` with
a zero-length plaintext fails, and the streaming finish after zero
total bytes (empty accumulator, null or empty final chunk, real output
pointer) fails in both the encrypt and decrypt directions. -/
theorem C9_empty_rejected {Point : Type} (prims : SM2Prims Point)
    (rands : List (Option Nat)) (key : SM2_KEY) (ctx : SM2_ENC_CTX)
    (inOpt : Option (List Nat)) (out0 : List Nat)
    (hbuf : ctx.buf = [])
    (hin : inOpt = none ∨ inOpt = some []) :
    sm2_encrypt prims rands key [] = none ∧
    sm2_encrypt_finish prims rands ctx inOpt false = none ∧
    sm2_decrypt_finish prims ctx inOpt false out0 = none := by
  refine ⟨by simp [sm2_encrypt], ?_, ?_⟩
  · unfold sm2_encrypt_finish
    rcases hin with h | h <;> simp [hbuf, h, SM2_MAX_PLAINTEXT_SIZE]
  · unfold sm2_decrypt_finish
    rcases hin with h | h <;> simp [hbuf, h, SM2_MAX_CIPHERTEXT_SIZE]

/-- Witness for C9 with a freshly initialized context and a null final
chunk. -/
theorem C9_empty_rejected_witness :
    sm2_encrypt toyPrims [] toyKey [] = none ∧
    sm2_encrypt_finish toyPrims [] (sm2_encrypt_init toyKey) none false = none ∧
    sm2_decrypt_finish toyPrims (sm2_encrypt_init toyKey) none false [] = none :=
  C9_empty_rejected toyPrims [] toyKey (sm2_encrypt_init toyKey) none [] rfl
    (Or.inl rfl)

/-- C5 (amended): in `sm2_do_encrypt_fixlen`, a length mismatch with
attempts remaining draws a fresh `k` WITHOUT wiping the previous one
(it is only overwritten by the next draw), up to `MAX_TRIES = 200`
length-checked attempts; exhausting the counter makes the call fail,
wiping `k` there; and the attempt counter is decremented only by
length-mismatch retries, never by all-zero-KDF retries. Stated through
the retry trace: it observes the counter discipline `ctrOK` from
`MAX_TRIES` (mismatch events record the live counter and consume one,
all-zero events consume none, exhaustion only at zero), at most
`MAX_TRIES` mismatch retries ever occur, exhaustion implies failure
with exactly `MAX_TRIES` consumed and `k` wiped, and every mismatch
retry begins with the drawn `k` still live (nonzero). -/
theorem C5_fixlen_retry_bound {Point : Type} (prims : SM2Prims Point)
    (rands : List (Option Nat)) (key : SM2_KEY) (M : List Nat) (point_size : Nat) :
    ctrOK MAX_TRIES (sm2_do_encrypt_fixlen prims rands key M point_size).trace = true ∧
    (sm2_do_encrypt_fixlen prims rands key M point_size).trace.countP
      (fun e => e.isLenRetry) ≤ MAX_TRIES ∧
    (∀ k, FixEv.exhausted k ∈
        (sm2_do_encrypt_fixlen prims rands key M point_size).trace →
      (sm2_do_encrypt_fixlen prims rands key M point_size).result = none ∧
      (sm2_do_encrypt_fixlen prims rands key M point_size).locals.k = 0 ∧
      (sm2_do_encrypt_fixlen prims rands key M point_size).trace.countP
        (fun e => e.isLenRetry) = MAX_TRIES) ∧
    (∀ k tb, FixEv.lenRetry k tb ∈
        (sm2_do_encrypt_fixlen prims rands key M point_size).trace → k ≠ 0) := by
  unfold sm2_do_encrypt_fixlen
  by_cases hb : SM2_MIN_PLAINTEXT_SIZE ≤ M.length ∧ M.length ≤ SM2_MAX_PLAINTEXT_SIZE
  · rw [if_pos hb]
    by_cases hp : point_size = SM2_ciphertext_compact_point_size ∨
        point_size = SM2_ciphertext_typical_point_size ∨
        point_size = SM2_ciphertext_max_point_size
    · rw [if_pos hp]
      have hctr := sm2_do_encrypt_fixlen_loop_ctrOK prims
        (prims.pointFromBytes key.public_key) M point_size rands MAX_TRIES
        (initEncLocals Point)
      refine ⟨hctr, ctrOK_countP_le _ _ hctr, ?_, ?_⟩
      · intro k hmem
        have hex := sm2_do_encrypt_fixlen_loop_exhausted prims
          (prims.pointFromBytes key.public_key) M point_size rands MAX_TRIES
          (initEncLocals Point) k hmem
        exact ⟨hex.1, hex.2, ctrOK_exhausted_countP _ _ k hctr hmem⟩
      · intro k tb hmem
        exact sm2_do_encrypt_fixlen_loop_lenRetry_live prims
          (prims.pointFromBytes key.public_key) M point_size rands MAX_TRIES
          (initEncLocals Point) k tb hmem
    · rw [if_neg hp]
      simp [ctrOK]
  · rw [if_neg hb]
    simp [ctrOK]

/-- Witness for the amended C5 at a concrete run (two mismatching
draws, then RNG exhaustion). -/
theorem C5_fixlen_retry_bound_witness :
    ctrOK MAX_TRIES (sm2_do_encrypt_fixlen toyPrims [some 5, some 7] toyKey
      [1, 2] 68).trace = true :=
  (C5_fixlen_retry_bound toyPrims [some 5, some 7] toyKey [1, 2] 68).1

/-- Counterexample to C5 as stated: the length-mismatch retry does NOT
wipe `k` before drawing afresh. In this concrete run both mismatch
retries begin with the previous draw still live in `k` (values 5 then
7, recorded by the trace at the moment the `goto retry` is taken), and
the run ends with `k = 7` still in the stack frame. -/
theorem C5_counterexample :
    (sm2_do_encrypt_fixlen toyPrims [some 5, some 7] toyKey [1, 2] 68).trace =
      [FixEv.lenRetry 5 200, FixEv.lenRetry 7 199] ∧
    (5 : Nat) ≠ 0 ∧
    (sm2_do_encrypt_fixlen toyPrims [some 5, some 7] toyKey [1, 2] 68).locals.k = 7 := by
  refine ⟨by decide, by decide, by decide⟩

/-- C4 (amended): the secret locals are wiped on the success exits of
`sm2_do_encrypt` and `sm2_do_encrypt_fixlen`, on the retry-exhausted
exit of `sm2_do_encrypt_fixlen` (`k` only), and on every
`sm2_do_decrypt` path past the on-curve check; retry paths do not wipe
before a fresh attempt begins, and an RNG-failure return inside a
retry leaves the previous attempt's secrets in place (see the
counterexample). -/
theorem C4_wiping {Point : Type} (prims : SM2Prims Point)
    (rands : List (Option Nat)) (key : SM2_KEY) (M : List Nat) (point_size : Nat)
    (Cin : SM2_CIPHERTEXT) (out0 : List Nat) :
    ((sm2_do_encrypt prims rands key M).result.isSome = true →
      (sm2_do_encrypt prims rands key M).locals = wipedEncLocals Point) ∧
    ((sm2_do_encrypt_fixlen prims rands key M point_size).result.isSome = true →
      (sm2_do_encrypt_fixlen prims rands key M point_size).locals =
        wipedEncLocals Point) ∧
    (∀ k, FixEv.exhausted k ∈
        (sm2_do_encrypt_fixlen prims rands key M point_size).trace →
      (sm2_do_encrypt_fixlen prims rands key M point_size).locals.k = 0) ∧
    ((sm2_do_decrypt prims key Cin out0).locals.d = 0 ∧
     (sm2_do_decrypt prims key Cin out0).locals.x2y2 = List.replicate 64 0) ∧
    (prims.pointIsOnCurve (prims.pointFromBytes (Cin.x ++ Cin.y)) = true →
      (sm2_do_decrypt prims key Cin out0).locals = wipedDecLocals Point) := by
  refine ⟨?_, ?_, ?_, ?_, ?_⟩
  · intro h
    unfold sm2_do_encrypt at h ⊢
    by_cases hb : SM2_MIN_PLAINTEXT_SIZE ≤ M.length ∧ M.length ≤ SM2_MAX_PLAINTEXT_SIZE
    · rw [if_pos hb] at h ⊢
      exact sm2_do_encrypt_loop_wipes prims _ M rands _ h
    · rw [if_neg hb] at h
      simp at h
  · intro h
    unfold sm2_do_encrypt_fixlen at h ⊢
    by_cases hb : SM2_MIN_PLAINTEXT_SIZE ≤ M.length ∧ M.length ≤ SM2_MAX_PLAINTEXT_SIZE
    · rw [if_pos hb] at h ⊢
      by_cases hp : point_size = SM2_ciphertext_compact_point_size ∨
          point_size = SM2_ciphertext_typical_point_size ∨
          point_size = SM2_ciphertext_max_point_size
      · rw [if_pos hp] at h ⊢
        exact sm2_do_encrypt_fixlen_loop_wipes prims _ M point_size rands _ _ h
      · rw [if_neg hp] at h
        simp at h
    · rw [if_neg hb] at h
      simp at h
  · intro k hmem
    unfold sm2_do_encrypt_fixlen at hmem ⊢
    by_cases hb : SM2_MIN_PLAINTEXT_SIZE ≤ M.length ∧ M.length ≤ SM2_MAX_PLAINTEXT_SIZE
    · rw [if_pos hb] at hmem ⊢
      by_cases hp : point_size = SM2_ciphertext_compact_point_size ∨
          point_size = SM2_ciphertext_typical_point_size ∨
          point_size = SM2_ciphertext_max_point_size
      · rw [if_pos hp] at hmem ⊢
        exact (sm2_do_encrypt_fixlen_loop_exhausted prims _ M point_size rands _ _ k
          hmem).2
      · rw [if_neg hp] at hmem
        simp at hmem
    · rw [if_neg hb] at hmem
      simp at hmem
  · unfold sm2_do_decrypt
    by_cases honc : prims.pointIsOnCurve (prims.pointFromBytes (Cin.x ++ Cin.y))
    · by_cases hz : all_zero ((dec_out1 prims key Cin out0).take Cin.ciphertext_size)
      · simp [honc, hz, wipedDecLocals]
      · by_cases hh : Cin.hash = dec_u prims key Cin out0 <;>
          simp [honc, hz, hh, wipedDecLocals]
    · simp [honc]
  · intro honc
    unfold sm2_do_decrypt
    by_cases hz : all_zero ((dec_out1 prims key Cin out0).take Cin.ciphertext_size)
    · simp [honc, hz]
    · by_cases hh : Cin.hash = dec_u prims key Cin out0 <;> simp [honc, hz, hh]

/-- Witness for the amended C4: a concrete successful encryption leaves
the locals wiped. -/
theorem C4_wiping_witness :
    (sm2_do_encrypt toyPrims [some 2] toyKey [10, 20]).locals = wipedEncLocals Nat :=
  (C4_wiping toyPrims [some 2] toyKey [10, 20] 68 toyC []).1 (by decide)

/-- Counterexample to C4 as stated: an RNG failure inside the all-zero
retry loop of `sm2_do_encrypt` returns -1 with the previous attempt's
`k`, `kP` and `x2y2` all still live in the stack frame — no wipe
happens on this exit path, nor before the retry began. -/
theorem C4_counterexample :
    (sm2_do_encrypt toyPrimsZeroKdf [some 5, none] toyKey [1, 2, 3]).result = none ∧
    (sm2_do_encrypt toyPrimsZeroKdf [some 5, none] toyKey [1, 2, 3]).locals.k = 5 ∧
    (sm2_do_encrypt toyPrimsZeroKdf [some 5, none] toyKey [1, 2, 3]).locals.kP ≠
      none ∧
    (sm2_do_encrypt toyPrimsZeroKdf [some 5, none] toyKey [1, 2, 3]).locals.x2y2 ≠
      List.replicate 64 0 := by
  refine ⟨by decide, by decide, by decide, by decide⟩
